import Mathlib

/-!
Verification development for the batch archive-extraction driver `d7.py`.

The script drives an external 7-Zip executable over a list of resolved input
files: it expands input specs into a file list (`get_file_list`), allocates a
collision-free output directory per archive (`create_dir`), builds and runs
one extraction command per archive (`seven_zip`), classifies the exit code
(`getSeverity`, `return_code_table`) and accumulates statistics (`main`).

The filesystem and the external tool are modelled explicitly: the filesystem
is a record of existing file paths, existing directory paths, a directory
listing function and a path-resolution function; the external tool is an
oracle from a command line to an exit code.  The unbounded suffix-probing
loop of `create_dir` (`itertools.count(1)`) is given explicit fuel; running
out of fuel is a distinguished result that corresponds to the Python loop
never finding a free name (impossible on a real finite filesystem).
-/

namespace D7

/-! ## Path-string helpers (following CPython `posixpath`) -/

/-- Index of the last occurrence of character `c` in a list of characters. -/
def lastIdx (c : Char) : List Char → Option Nat
  | [] => none
  | a :: rest =>
    match lastIdx c rest with
    | some i => some (i + 1)
    | none => if a = c then some 0 else none

/-- Embeds `os.path.basename`: everything after the last slash. -/
def basename (p : String) : String :=
  match lastIdx '/' p.data with
  | none => p
  | some i => String.mk (p.data.drop (i + 1))

/-- Embeds `os.path.splitext`: split off the extension at the last dot of the last
component, except when every character between the start of that component
and the last dot is itself a dot (leading dots are part of the root). -/
def splitext (p : String) : String × String :=
  let cs := p.data
  let fstart : Nat :=
    match lastIdx '/' cs with
    | none => 0
    | some s => s + 1
  match lastIdx '.' cs with
  | none => (p, "")
  | some d =>
    if ((cs.drop fstart).take (d - fstart)).any (fun ch => ch ≠ '.') then
      (String.mk (cs.take d), String.mk (cs.drop d))
    else (p, "")

/-- Embeds `os.path.dirname`: everything up to the last slash, with trailing slashes
stripped unless the head is all slashes. -/
def dirname (p : String) : String :=
  match lastIdx '/' p.data with
  | none => ""
  | some i =>
    let head := p.data.take (i + 1)
    if head.all (fun ch => ch = '/') then String.mk head
    else String.mk ((head.reverse.dropWhile (fun ch => ch = '/')).reverse)

/-- Python `str.startswith`. -/
def startswith (s pre : String) : Bool := pre.data.isPrefixOf s.data

/-- Python `str.endswith`. -/
def endswith (s suf : String) : Bool := suf.data.isSuffixOf s.data

/-- Embeds `os.path.join` for two components. -/
def joinPath (a b : String) : String :=
  if startswith b "/" then b
  else if a == "" || endswith a "/" then a ++ b
  else a ++ "/" ++ b

/-! ## Filesystem model -/

/-- One entry produced by `os.scandir`: its bare name and its path. -/
structure DirEntry where
  name : String
  path : String
deriving DecidableEq

/-- Filesystem state: the set of existing regular files, the set of existing
directories, the ordered directory listing, and path resolution (`abspath`,
which depends on the ambient working directory and so is part of the state). -/
structure FS where
  files : List String
  dirs : List String
  scandirFn : String → List DirEntry
  abspath : String → String

/-- Embeds `os.path.isfile`. -/
def FS.isFile (fs : FS) (p : String) : Bool := fs.files.contains p

/-- Embeds `os.path.isdir`. -/
def FS.isDir (fs : FS) (p : String) : Bool := fs.dirs.contains p

/-- Embeds `os.scandir`. -/
def FS.scandir (fs : FS) (p : String) : List DirEntry := fs.scandirFn p

/-- Embeds `os.makedirs`: registers the directory as existing. -/
def FS.makedirs (fs : FS) (p : String) : FS := { fs with dirs := p :: fs.dirs }

/-- Python truthiness of an optional string (`None` and `""` are falsy). -/
def pyTruthy : Option String → Bool
  | none => false
  | some s => s != ""

/-- Python `str()` of an optional string (`str(None) == "None"`). -/
def pyStrOpt : Option String → String
  | none => "None"
  | some s => s

/-! ## `create_dir` -/

/-- The suffixed variant `path + "(i)"` probed by `create_dir`. -/
def suffixed (p : String) (i : Nat) : String := p ++ "(" ++ toString i ++ ")"

/-- The `itertools.count(1)` probe of `create_dir`, with explicit fuel:
returns the first index `j ≥ i` whose suffixed variant is not a regular
file, or `none` if the fuel runs out first. -/
def findFreeSuffix (fs : FS) (p : String) : Nat → Nat → Option Nat
  | _, 0 => none
  | i, fuel + 1 =>
    if fs.isFile (suffixed p i) then findFreeSuffix fs p (i + 1) fuel else some i

/-- Embeds `create_dir`: absolutize a truthy path, append a numeric suffix while a
regular file occupies the chosen name, create the directory if absent.
Returns `none` when the suffix probe exhausts its fuel, otherwise the chosen
path (or `Option.none` inside for a falsy argument) and the new filesystem. -/
def create_dir (fs : FS) (dir_path : Option String) (fuel : Nat) :
    Option (Option String × FS) :=
  match dir_path with
  | none => some (none, fs)
  | some s =>
    if s == "" then some (none, fs)
    else
      let a := fs.abspath s
      let chosen : Option String :=
        if fs.isFile a then (findFreeSuffix fs a 1 fuel).map (fun i => suffixed a i)
        else some a
      match chosen with
      | none => none
      | some d =>
        let fs2 := if fs.isDir d then fs else fs.makedirs d
        some (some d, fs2)

/-! ## `get_file_list` -/

/-- The nested `search_sub_dir` closure: list a directory, keep non-hidden
entries that are files, recurse (on fuel) into non-hidden sub-directories
when `recursive` is set. -/
def search_sub_dir (fs : FS) (recursive : Bool) : Nat → String → List String
  | 0, path =>
    (fs.scandir path).flatMap fun e =>
      if !startswith e.name "." && fs.isFile e.path then [e.path] else []
  | fuel + 1, path =>
    (fs.scandir path).flatMap fun e =>
      if !startswith e.name "." && fs.isFile e.path then [e.path]
      else if (!startswith e.name "." && fs.isDir e.path) && recursive then
        search_sub_dir fs recursive fuel e.path
      else []

/-- The accumulating loop of `get_file_list`: `none` models `files = None`
(an input path that is neither a file nor a directory, with early break). -/
def get_file_list_go (fs : FS) (recursive : Bool) (fuel : Nat) :
    List String → List String → Option (List String)
  | [], acc => some acc
  | p :: rest, acc =>
    let absolute_path := fs.abspath p
    if fs.isFile absolute_path then
      get_file_list_go fs recursive fuel rest (acc ++ [absolute_path])
    else if fs.isDir absolute_path then
      get_file_list_go fs recursive fuel rest
        (acc ++ search_sub_dir fs recursive fuel absolute_path)
    else none

/-- Embeds `get_file_list`: expand every input spec; `sys.exit(-2)` (modelled as
`Except.error (-2)`) when an input path is invalid or the result is empty. -/
def get_file_list (fs : FS) (path_list : List String) (recursive : Bool)
    (fuel : Nat) : Except Int (List String) :=
  match get_file_list_go fs recursive fuel path_list [] with
  | none => Except.error (-2)
  | some files => if files.length ≤ 0 then Except.error (-2) else Except.ok files

/-! ## `seven_zip` -/

/-- The result of `subprocess.run`: the argument list and the exit code. -/
structure CompletedProcess where
  args : List String
  returncode : Int
deriving DecidableEq

/-- Embeds `seven_zip`: build the 7-Zip command line and run it through the external
tool oracle `execTool`.  The password flag is appended only for extensions
`.zip`, `.7z`, `.rar` or the empty extension; the codepage flag only for
`.zip` or `.tar`; the archive path is appended last. -/
def seven_zip (execTool : List String → Int) (exe_path : String)
    (file_path : String) (out_dir : Option String) (password : Option String)
    (code_page : Option Int) : CompletedProcess :=
  let ext := (splitext (basename file_path)).2
  let cmd0 := [exe_path, "x", "-y", "-aoa", "-o" ++ pyStrOpt out_dir]
  let cmd1 :=
    match password with
    | some pw =>
      if [".zip", ".7z", ".rar", ""].contains ext then cmd0 ++ ["-p" ++ pw] else cmd0
    | none => cmd0
  let cmd2 :=
    match code_page with
    | some cp =>
      if [".zip", ".tar"].contains ext then cmd1 ++ ["-mcp=" ++ toString cp] else cmd1
    | none => cmd1
  let cmd := cmd2 ++ [file_path]
  { args := cmd, returncode := execTool cmd }

/-! ## Outcome classification -/

/-- The three logging levels `getSeverity` can return
(`logging.INFO`, `logging.WARNING`, `logging.ERROR`). -/
inductive Severity where
  | info
  | warning
  | error
deriving DecidableEq

/-- Embeds `getSeverity`: 0 is info, 1 and 255 are warnings, everything else error. -/
def getSeverity (level : Int) : Severity :=
  if level == 0 then Severity.info
  else if level == 1 || level == 255 then Severity.warning
  else Severity.error

/-- The `return_code_table` dict of `main`; lookup of a missing key is `none`
(a `KeyError` in Python). -/
def return_code_table (c : Int) : Option String :=
  if c == 0 then some "No error"
  else if c == 1 then some "Warning"
  else if c == 2 then some "Fatal error"
  else if c == 7 then some "Command line error"
  else if c == 8 then some "Not enough memory for operation"
  else if c == 255 then some "User stopped the process"
  else none

/-- Success as `main` accounts it: only exit code 0 avoids the failure
counter (`rtn.returncode != 0` increments it). -/
def isSuccess (c : Int) : Bool := c == 0

/-! ## `main`: the batch loop -/

/-- The `statistics` dict of `main`. -/
structure RunStatistics where
  total : Nat
  failure : Nat
deriving DecidableEq

/-- The per-archive log record emitted by one loop iteration
(`IN_FILE`, `OUT_DIR` and `CMDSTATUS` lines). -/
structure ItemRecord where
  file : String
  out_dir : Option String
  code : Int
  severity : Severity
  desc : String
deriving DecidableEq

/-- Result of the batch loop: normal completion with statistics and the
per-item records; an uncaught `KeyError` from `return_code_table` lookup at
some file (the records already emitted are kept); or fuel exhaustion inside
`create_dir`. -/
inductive LoopResult where
  | ok (stats : RunStatistics) (trace : List ItemRecord)
  | keyError (processed : List ItemRecord) (file : String) (code : Int)
  | noFuel
deriving DecidableEq

/-- The per-archive output directory argument of one loop iteration:
`os.path.join(base_dir_path, name)` where `name` is the archive's base
filename without extension and the base directory is the global output root
when truthy, else the archive's own directory. -/
def item_out_dir_arg (work_dir : Option String) (f : String) : String :=
  joinPath (if pyTruthy work_dir then pyStrOpt work_dir else dirname f)
    (splitext (basename f)).1

/-- One pass of the `for i in range(0, statistics["total"])` loop of `main`:
derive the per-archive directory name, allocate it, invoke 7-Zip, count the
failure, then format the `CMDSTATUS` line (whose table lookup can raise). -/
def main_loop_go (execTool : List String → Int) (exe_path : String)
    (work_dir : Option String) (password : Option String)
    (code_page : Option Int) (fuel : Nat) (total : Nat) :
    List String → FS → Nat → List ItemRecord → LoopResult
  | [], _, failureCnt, trace => LoopResult.ok { total := total, failure := failureCnt } trace
  | f :: rest, fs, failureCnt, trace =>
    match create_dir fs (some (item_out_dir_arg work_dir f)) fuel with
    | none => LoopResult.noFuel
    | some (separate_dir, fs2) =>
      let rtn := seven_zip execTool exe_path f separate_dir password code_page
      match return_code_table rtn.returncode with
      | none => LoopResult.keyError trace f rtn.returncode
      | some desc =>
        main_loop_go execTool exe_path work_dir password code_page fuel total
          rest fs2 (if rtn.returncode != 0 then failureCnt + 1 else failureCnt)
          (trace ++ [{ file := f, out_dir := separate_dir, code := rtn.returncode,
                       severity := getSeverity rtn.returncode, desc := desc }])

/-- The batch loop of `main` over the resolved file list, with
`statistics["total"] = len(files)` set before the loop starts. -/
def main_loop (fs : FS) (execTool : List String → Int) (exe_path : String)
    (work_dir : Option String) (password : Option String)
    (code_page : Option Int) (fuel : Nat) (files : List String) : LoopResult :=
  main_loop_go execTool exe_path work_dir password code_page fuel
    files.length files fs 0 []

/-! ## The whole script -/

/-- The parsed command-line arguments. -/
structure Args where
  codepage : Option Int
  input : List String
  output : Option String
  password : Option String
  exe : String

/-- The recognized executable base names checked by `check_argument`. -/
def main_executables : List String := ["7z", "7za", "7zz", "7zzs", "7zr"]

/-- How the process ends: an explicit exit code, an uncaught exception
(the `KeyError` of the `CMDSTATUS` lookup), or fuel exhaustion. -/
inductive ScriptResult where
  | exitCode (c : Int)
  | uncaught
  | noFuel
deriving DecidableEq

/-- The whole script: `check_argument` validation (exit -2 on a missing or
unrecognized executable), `get_file_list` (exit -2 on an invalid input path
or an empty file set), `create_dir` on the output root, then the batch loop;
a completed loop falls through to the end of `main` (process exit 0). -/
def run_script (fs : FS) (execTool : List String → Int) (args : Args)
    (fuel : Nat) : ScriptResult :=
  if !(fs.isFile args.exe) then ScriptResult.exitCode (-2)
  else if !(main_executables.contains (splitext (basename args.exe)).1) then
    ScriptResult.exitCode (-2)
  else
    let exe_path := fs.abspath args.exe
    match get_file_list fs args.input false fuel with
    | Except.error c => ScriptResult.exitCode c
    | Except.ok files =>
      match create_dir fs args.output fuel with
      | none => ScriptResult.noFuel
      | some (work_dir, fs2) =>
        match main_loop fs2 execTool exe_path work_dir args.password
            args.codepage fuel files with
        | LoopResult.ok _ _ => ScriptResult.exitCode 0
        | LoopResult.keyError _ _ _ => ScriptResult.uncaught
        | LoopResult.noFuel => ScriptResult.noFuel

/-! ## Shared helper lemmas -/

theorem contains_eq_true_iff_mem {l : List String} {a : String} :
    l.contains a = true ↔ a ∈ l := List.elem_iff

/-- The password-flag segment of the built command, as a standalone list. -/
def pw_part (ext : String) : Option String → List String
  | some pw => if [".zip", ".7z", ".rar", ""].contains ext then ["-p" ++ pw] else []
  | none => []

/-- The codepage-flag segment of the built command, as a standalone list. -/
def cp_part (ext : String) : Option Int → List String
  | some cp => if [".zip", ".tar"].contains ext then ["-mcp=" ++ toString cp] else []
  | none => []

/-- Normal form of the command line built by `seven_zip`. -/
theorem seven_zip_args (execTool : List String → Int) (exe_path file_path : String)
    (out_dir : Option String) (password : Option String) (code_page : Option Int) :
    (seven_zip execTool exe_path file_path out_dir password code_page).args =
      [exe_path, "x", "-y", "-aoa", "-o" ++ pyStrOpt out_dir] ++
        pw_part (splitext (basename file_path)).2 password ++
        cp_part (splitext (basename file_path)).2 code_page ++ [file_path] := by
  simp only [seven_zip, pw_part, cp_part]
  cases password <;> cases code_page <;> simp only [] <;>
    (try split) <;> (try split) <;> simp [List.append_assoc]

/-! ## C3: outcome classification -/

/-- C3 (counterexample): the claim maps every unlisted exit code to the
description "unknown code", but the code's `return_code_table` has no entry
at all for exit code 3 (in Python, the `CMDSTATUS` lookup raises `KeyError`
there instead of producing any description). -/
theorem C3_unknown_code_has_no_description :
    return_code_table 3 = none ∧ return_code_table 3 ≠ some "unknown code" :=
  ⟨rfl, fun h => Option.noConfusion h⟩

/-- C3 (amended): exit codes 0, 1, 2, 7, 8 and 255 are classified exactly by
the fixed table (description, severity, success); any other exit code gets
severity `error` and counts as a failure, but has NO description entry —
the description lookup fails instead of yielding "unknown code". -/
theorem C3_outcome_classification :
    (return_code_table 0 = some "No error" ∧ getSeverity 0 = Severity.info ∧
      isSuccess 0 = true) ∧
    (return_code_table 1 = some "Warning" ∧ getSeverity 1 = Severity.warning ∧
      isSuccess 1 = false) ∧
    (return_code_table 2 = some "Fatal error" ∧ getSeverity 2 = Severity.error ∧
      isSuccess 2 = false) ∧
    (return_code_table 7 = some "Command line error" ∧
      getSeverity 7 = Severity.error ∧ isSuccess 7 = false) ∧
    (return_code_table 8 = some "Not enough memory for operation" ∧
      getSeverity 8 = Severity.error ∧ isSuccess 8 = false) ∧
    (return_code_table 255 = some "User stopped the process" ∧
      getSeverity 255 = Severity.warning ∧ isSuccess 255 = false) ∧
    ∀ c : Int, c ∉ ([0, 1, 2, 7, 8, 255] : List Int) →
      getSeverity c = Severity.error ∧ return_code_table c = none ∧
        isSuccess c = false := by
  refine ⟨by decide, by decide, by decide, by decide, by decide, by decide, ?_⟩
  intro c hc
  simp only [List.mem_cons, List.not_mem_nil, or_false, not_or] at hc
  obtain ⟨h0, h1, h2, h7, h8, h255⟩ := hc
  simp [getSeverity, return_code_table, isSuccess, h0, h1, h2, h7, h8, h255]

/-- C3 witness at exit code 3: the unlisted code is classified with severity
`error`, no description, and failure. -/
theorem C3_outcome_classification_witness :
    getSeverity 3 = Severity.error ∧ return_code_table 3 = none ∧
      isSuccess 3 = false :=
  C3_outcome_classification.2.2.2.2.2.2 3 (by decide)

/-! ## C4: password flag -/

/-- C4: the built command line includes the password flag `-p<password>` iff
a password was supplied and the archive's extension is one of `.zip`, `.7z`,
`.rar` or the empty extension.  The side conditions rule out an unrelated
argument happening to equal the flag string. -/
theorem C4_password_flag (execTool : List String → Int)
    (exe_path file_path : String) (out_dir : Option String)
    (password : Option String) (code_page : Option Int)
    (halias : ∀ pw, password = some pw →
      ("-p" ++ pw) ∉ [exe_path, "x", "-y", "-aoa", "-o" ++ pyStrOpt out_dir, file_path] ∧
      ∀ cp, code_page = some cp → ("-p" ++ pw) ≠ "-mcp=" ++ toString cp) :
    (∃ pw, password = some pw ∧
        ("-p" ++ pw) ∈ (seven_zip execTool exe_path file_path out_dir password code_page).args) ↔
      (password ≠ none ∧
        (splitext (basename file_path)).2 ∈ [".zip", ".7z", ".rar", ""]) := by
  cases password with
  | none => simp
  | some pw =>
    obtain ⟨h1, h2⟩ := halias pw rfl
    simp only [List.mem_cons, List.not_mem_nil, or_false, not_or] at h1
    rw [seven_zip_args]
    simp only [Option.some.injEq, exists_eq_left', ne_eq, reduceCtorEq,
      not_false_iff, true_and]
    by_cases hext : (splitext (basename file_path)).2 ∈
        ([".zip", ".7z", ".rar", ""] : List String)
    · simp only [hext, iff_true, pw_part,
        if_pos (contains_eq_true_iff_mem.mpr hext)]
      simp [List.mem_append]
    · rw [pw_part, if_neg (by
        intro h
        exact hext (contains_eq_true_iff_mem.mp h))]
      simp only [hext, iff_false, List.append_nil]
      cases code_page with
      | none => simp [cp_part, List.mem_append, h1]
      | some cp =>
        have h2cp := h2 cp rfl
        by_cases hcp : (splitext (basename file_path)).2 ∈ ([".zip", ".tar"] : List String)
        · rw [cp_part, if_pos (contains_eq_true_iff_mem.mpr hcp)]
          simp [List.mem_append, h1, h2cp]
        · rw [cp_part, if_neg (by
            intro h
            exact hcp (contains_eq_true_iff_mem.mp h))]
          simp [List.mem_append, h1]

/-- C4 witness: `secret.rar` with password "pw" gets the password flag. -/
theorem C4_password_flag_witness :
    (∃ pw, (some "pw" : Option String) = some pw ∧
        ("-p" ++ pw) ∈ (seven_zip (fun _ => 0) "/x/7z" "secret.rar" (some "/o")
          (some "pw") none).args) ↔
      ((some "pw" : Option String) ≠ none ∧
        (splitext (basename "secret.rar")).2 ∈ [".zip", ".7z", ".rar", ""]) :=
  C4_password_flag (fun _ => 0) "/x/7z" "secret.rar" (some "/o") (some "pw") none
    (by intro pw hpw
        injection hpw with h
        subst h
        exact ⟨by decide, by intro cp hcp; cases hcp⟩)

/-! ## C5: codepage flag and final positional argument -/

/-- C5: the built command line includes the codepage flag `-mcp=<cp>` iff a
codepage was supplied and the archive's extension is `.zip` or `.tar`, and
the archive path is always the final argument of the command. -/
theorem C5_codepage_flag_and_position (execTool : List String → Int)
    (exe_path file_path : String) (out_dir : Option String)
    (password : Option String) (code_page : Option Int)
    (halias : ∀ cp, code_page = some cp →
      ("-mcp=" ++ toString cp) ∉ [exe_path, "x", "-y", "-aoa", "-o" ++ pyStrOpt out_dir, file_path] ∧
      ∀ pw, password = some pw → ("-mcp=" ++ toString cp) ≠ "-p" ++ pw) :
    ((∃ cp, code_page = some cp ∧
        ("-mcp=" ++ toString cp) ∈ (seven_zip execTool exe_path file_path out_dir password code_page).args) ↔
      (code_page ≠ none ∧ (splitext (basename file_path)).2 ∈ [".zip", ".tar"])) ∧
    (seven_zip execTool exe_path file_path out_dir password code_page).args.getLast? =
      some file_path := by
  constructor
  · cases code_page with
    | none => simp
    | some cp =>
      obtain ⟨h1, h2⟩ := halias cp rfl
      simp only [List.mem_cons, List.not_mem_nil, or_false, not_or] at h1
      rw [seven_zip_args]
      simp only [Option.some.injEq, exists_eq_left', ne_eq, reduceCtorEq,
        not_false_iff, true_and]
      by_cases hcp : (splitext (basename file_path)).2 ∈ ([".zip", ".tar"] : List String)
      · simp only [hcp, iff_true, cp_part,
          if_pos (contains_eq_true_iff_mem.mpr hcp)]
        simp [List.mem_append]
      · rw [cp_part, if_neg (by
          intro h
          exact hcp (contains_eq_true_iff_mem.mp h))]
        simp only [hcp, iff_false]
        cases password with
        | none => simp [pw_part, List.mem_append, h1]
        | some pw =>
          have h2pw := h2 pw rfl
          by_cases hext : (splitext (basename file_path)).2 ∈
              ([".zip", ".7z", ".rar", ""] : List String)
          · rw [pw_part, if_pos (contains_eq_true_iff_mem.mpr hext)]
            simp [List.mem_append, h1, h2pw]
          · rw [pw_part, if_neg (by
              intro h
              exact hext (contains_eq_true_iff_mem.mp h))]
            simp [List.mem_append, h1]
  · rw [seven_zip_args]
    exact List.getLast?_concat _

/-- C5 witness: `data.zip` with codepage 65001 gets the codepage flag, and
the archive path is the last argument. -/
theorem C5_codepage_flag_witness :
    ((∃ cp, (some 65001 : Option Int) = some cp ∧
        ("-mcp=" ++ toString cp) ∈ (seven_zip (fun _ => 0) "/x/7z" "data.zip" (some "/o")
          none (some 65001)).args) ↔
      ((some 65001 : Option Int) ≠ none ∧
        (splitext (basename "data.zip")).2 ∈ [".zip", ".tar"])) ∧
    (seven_zip (fun _ => 0) "/x/7z" "data.zip" (some "/o") none (some 65001)).args.getLast? =
      some "data.zip" :=
  C5_codepage_flag_and_position (fun _ => 0) "/x/7z" "data.zip" (some "/o") none (some 65001)
    (by intro cp hcp
        injection hcp with h
        subst h
        exact ⟨by decide, by intro pw hpw; cases hpw⟩)

/-! ## C6, C7: `create_dir` -/

/-- A successful suffix probe returns the least free index at or after the
start index: the chosen variant is not a file and all earlier probed
variants are files. -/
theorem findFreeSuffix_spec (fs : FS) (p : String) :
    ∀ fuel i j, findFreeSuffix fs p i fuel = some j →
      i ≤ j ∧ fs.isFile (suffixed p j) = false ∧
        ∀ k, i ≤ k → k < j → fs.isFile (suffixed p k) = true := by
  intro fuel
  induction fuel with
  | zero => intro i j h; simp [findFreeSuffix] at h
  | succ n ih =>
    intro i j h
    rw [findFreeSuffix] at h
    by_cases hf : fs.isFile (suffixed p i) = true
    · rw [if_pos hf] at h
      obtain ⟨h1, h2, h3⟩ := ih (i + 1) j h
      refine ⟨by omega, h2, fun k hk1 hk2 => ?_⟩
      rcases Nat.eq_or_lt_of_le hk1 with he | hl
      · rw [← he]; exact hf
      · exact h3 k hl hk2
    · rw [if_neg hf] at h
      injection h with h
      subst h
      exact ⟨Nat.le_refl i, Bool.eq_false_iff.mpr (fun hb => hf hb), by omega⟩

/-- Probing ignores directories: registering a new directory does not change
the result of the suffix probe (it only checks regular files). -/
theorem findFreeSuffix_makedirs (fs : FS) (x p : String) :
    ∀ fuel i, findFreeSuffix (fs.makedirs x) p i fuel = findFreeSuffix fs p i fuel := by
  intro fuel
  induction fuel with
  | zero => intro i; rfl
  | succ n ih =>
    intro i
    rw [findFreeSuffix, findFreeSuffix]
    have : (fs.makedirs x).isFile (suffixed p i) = fs.isFile (suffixed p i) := rfl
    rw [this]
    by_cases hf : fs.isFile (suffixed p i) = true
    · rw [if_pos hf, if_pos hf, ih]
    · rw [if_neg hf, if_neg hf]

/-- A freshly registered directory exists as a directory. -/
theorem makedirs_isDir_self (fs : FS) (d : String) :
    (fs.makedirs d).isDir d = true := by
  exact contains_eq_true_iff_mem.mpr (List.mem_cons_self d fs.dirs)

/-- C6: for a non-empty desired path at which a regular file exists, a
successful `create_dir` returns the suffixed variant `"<path>(i)"` with the
least free index `i ≥ 1` (all smaller suffixes are occupied by files), the
chosen path collides with no existing regular file, and the result
filesystem has it as a directory while the set of files is unchanged. -/
theorem C6_create_dir_collision_suffix (fs : FS) (p : String) (fuel : Nat)
    (d : String) (fs' : FS)
    (hp : p ≠ "")
    (hf : fs.isFile (fs.abspath p) = true)
    (h : create_dir fs (some p) fuel = some (some d, fs')) :
    ∃ i, 1 ≤ i ∧ d = suffixed (fs.abspath p) i ∧
      fs.isFile d = false ∧
      (∀ k, 1 ≤ k → k < i → fs.isFile (suffixed (fs.abspath p) k) = true) ∧
      fs'.isDir d = true ∧ fs'.files = fs.files := by
  simp only [create_dir] at h
  rw [if_neg (by simpa using hp)] at h
  rw [if_pos hf] at h
  cases hfind : findFreeSuffix fs (fs.abspath p) 1 fuel with
  | none => rw [hfind] at h; simp at h
  | some i =>
    rw [hfind] at h
    simp only [Option.map_some', Option.some.injEq, Prod.mk.injEq] at h
    obtain ⟨hd, hfs⟩ := h
    obtain ⟨hi1, hi2, hi3⟩ := findFreeSuffix_spec fs (fs.abspath p) fuel 1 i hfind
    refine ⟨i, hi1, hd.symm, by rw [← hd]; exact hi2, hi3, ?_, ?_⟩
    · rw [← hfs, ← hd]
      by_cases hdir : fs.isDir (suffixed (fs.abspath p) i) = true
      · rw [if_pos hdir]; exact hdir
      · rw [if_neg hdir]; exact makedirs_isDir_self fs _
    · rw [← hfs]
      by_cases hdir : fs.isDir (suffixed (fs.abspath p) i) = true
      · rw [if_pos hdir]
      · rw [if_neg hdir]; rfl

/-- The concrete filesystem for the `create_dir` witnesses: the desired path
"/out" and its first suffixed variant "/out(1)" both exist as files. -/
def fsW6 : FS :=
  { files := ["/out", "/out(1)"], dirs := [],
    scandirFn := fun _ => [], abspath := fun s => s }

/-- State `fsW6` after `create_dir` has allocated "/out(2)" as a directory. -/
def fsW6' : FS :=
  { files := ["/out", "/out(1)"], dirs := ["/out(2)"],
    scandirFn := fun _ => [], abspath := fun s => s }

/-- C6 witness: on `fsW6`, the desired path "/out" is a file and the
allocator picks the suffixed variant "/out(2)". -/
theorem C6_create_dir_collision_suffix_witness :
    ∃ i, 1 ≤ i ∧ "/out(2)" = suffixed (fsW6.abspath "/out") i ∧
      fsW6.isFile "/out(2)" = false ∧
      (∀ k, 1 ≤ k → k < i → fsW6.isFile (suffixed (fsW6.abspath "/out") k) = true) ∧
      fsW6'.isDir "/out(2)" = true ∧ fsW6'.files = fsW6.files :=
  C6_create_dir_collision_suffix fsW6 "/out" 5 "/out(2)" fsW6'
    (by decide) (by rfl) (by rfl)

/-- C7: `create_dir` is idempotent — if a first call returns directory `d`
and filesystem `fs₁`, a second call on `fs₁` with the same desired path
returns the same `d` and leaves `fs₁` unchanged (no duplicate creation, no
failure). -/
theorem C7_create_dir_idempotent (fs : FS) (p : Option String) (fuel : Nat)
    (d : Option String) (fs₁ : FS)
    (h : create_dir fs p fuel = some (d, fs₁)) :
    create_dir fs₁ p fuel = some (d, fs₁) := by
  cases p with
  | none =>
    rw [create_dir] at h
    injection h with h
    injection h with h1 h2
    rw [create_dir, ← h1]
  | some s =>
    by_cases hs : (s == "") = true
    · rw [create_dir, if_pos hs] at h
      injection h with h
      injection h with h1 h2
      rw [create_dir, if_pos hs, ← h1]
    · simp only [create_dir] at h
      rw [if_neg hs] at h
      by_cases hf : fs.isFile (fs.abspath s) = true
      · rw [if_pos hf] at h
        cases hfind : findFreeSuffix fs (fs.abspath s) 1 fuel with
        | none => rw [hfind] at h; simp at h
        | some i =>
          rw [hfind] at h
          simp only [Option.map_some', Option.some.injEq, Prod.mk.injEq] at h
          obtain ⟨hd, hfs⟩ := h
          by_cases hdir : fs.isDir (suffixed (fs.abspath s) i) = true
          · rw [if_pos hdir] at hfs
            simp only [create_dir]
            rw [if_neg hs, ← hfs]
            rw [if_pos hf, hfind]
            simp only [Option.map_some', Option.some.injEq, Prod.mk.injEq]
            rw [if_pos hdir]
            exact ⟨hd, rfl⟩
          · rw [if_neg hdir] at hfs
            simp only [create_dir]
            rw [if_neg hs]
            have habs : fs₁.abspath = fs.abspath := by rw [← hfs]; rfl
            have hfile : fs₁.isFile (fs.abspath s) = fs.isFile (fs.abspath s) := by
              rw [← hfs]; rfl
            rw [habs, if_pos (by rw [hfile]; exact hf)]
            have hfind1 : findFreeSuffix fs₁ (fs.abspath s) 1 fuel = some i := by
              rw [← hfs, findFreeSuffix_makedirs, hfind]
            rw [hfind1]
            simp only [Option.map_some', Option.some.injEq, Prod.mk.injEq]
            have hdir1 : fs₁.isDir (suffixed (fs.abspath s) i) = true := by
              rw [← hfs]; exact makedirs_isDir_self fs _
            rw [if_pos hdir1]
            exact ⟨hd, rfl⟩
      · rw [if_neg hf] at h
        simp only [Option.some.injEq, Prod.mk.injEq] at h
        obtain ⟨hd, hfs⟩ := h
        by_cases hdir : fs.isDir (fs.abspath s) = true
        · rw [if_pos hdir] at hfs
          simp only [create_dir]
          rw [if_neg hs, ← hfs]
          rw [if_neg hf]
          simp only [Option.some.injEq, Prod.mk.injEq]
          rw [if_pos hdir]
          exact ⟨hd, rfl⟩
        · rw [if_neg hdir] at hfs
          simp only [create_dir]
          rw [if_neg hs]
          have habs : fs₁.abspath = fs.abspath := by rw [← hfs]; rfl
          have hfile : fs₁.isFile (fs.abspath s) = fs.isFile (fs.abspath s) := by
            rw [← hfs]; rfl
          rw [habs, if_neg (by rw [hfile]; exact hf)]
          simp only [Option.some.injEq, Prod.mk.injEq]
          have hdir1 : fs₁.isDir (fs.abspath s) = true := by
            rw [← hfs]; exact makedirs_isDir_self fs _
          rw [if_pos hdir1]
          exact ⟨hd, rfl⟩

/-- C7 witness: re-running `create_dir` on `fsW6'` (the state after the
first allocation of "/out") returns the same directory and state. -/
theorem C7_create_dir_idempotent_witness :
    create_dir fsW6' (some "/out") 5 = some (some "/out(2)", fsW6') :=
  C7_create_dir_idempotent fsW6 (some "/out") 5 (some "/out(2)") fsW6' (by rfl)

/-! ## C8, C10: `get_file_list` -/

theorem flatMap_singleton_if_eq_filter_map {α β : Type} (l : List α)
    (q : α → Bool) (f : α → β) :
    (l.flatMap fun e => if q e then [f e] else []) = (l.filter q).map f := by
  induction l with
  | nil => rfl
  | cons a t ih =>
    rw [List.flatMap_cons, List.filter_cons]
    by_cases hq : q a = true
    · rw [if_pos hq, if_pos hq, List.map_cons, ih]; rfl
    · rw [if_neg hq, if_neg hq, ih]; rfl

/-- With `recursive = False`, scanning a directory keeps exactly its direct
entries that are non-hidden regular files, in encounter order. -/
theorem search_sub_dir_nonrecursive (fs : FS) (fuel : Nat) (path : String) :
    search_sub_dir fs false fuel path =
      ((fs.scandir path).filter
        (fun e => !startswith e.name "." && fs.isFile e.path)).map
        (fun e => e.path) := by
  cases fuel with
  | zero =>
    rw [search_sub_dir]
    exact flatMap_singleton_if_eq_filter_map _ _ _
  | succ n =>
    rw [search_sub_dir]
    simp only [Bool.and_false, Bool.false_eq_true, if_false]
    exact flatMap_singleton_if_eq_filter_map _ _ _

/-- The claim-side characterization of expanding one input spec: a file spec
contributes itself (whatever its name); a directory spec contributes exactly
its direct non-hidden file entries in encounter order. -/
def expand_spec (fs : FS) (p : String) : List String :=
  if fs.isFile (fs.abspath p) then [fs.abspath p]
  else ((fs.scandir (fs.abspath p)).filter
    (fun e => !startswith e.name "." && fs.isFile e.path)).map (fun e => e.path)

theorem get_file_list_go_append (fs : FS) (fuel : Nat) :
    ∀ (specs acc : List String),
      (∀ p ∈ specs, fs.isFile (fs.abspath p) = true ∨ fs.isDir (fs.abspath p) = true) →
      get_file_list_go fs false fuel specs acc =
        some (acc ++ specs.flatMap (expand_spec fs)) := by
  intro specs
  induction specs with
  | nil => intro acc _; simp [get_file_list_go]
  | cons p rest ih =>
    intro acc hv
    simp only [get_file_list_go]
    by_cases hf : fs.isFile (fs.abspath p) = true
    · rw [if_pos hf, ih _ (fun q hq => hv q (List.mem_cons_of_mem _ hq))]
      rw [List.flatMap_cons, expand_spec, if_pos hf, List.append_assoc]
    · rcases hv p (List.mem_cons_self _ _) with hf' | hd
      · exact absurd hf' hf
      · rw [if_neg hf, if_pos hd, ih _ (fun q hq => hv q (List.mem_cons_of_mem _ hq))]
        rw [search_sub_dir_nonrecursive, List.flatMap_cons, expand_spec, if_neg hf,
          List.append_assoc]

/-- C8: when every input spec resolves to an existing file or directory and
the expansion is non-empty, `get_file_list` (non-recursive) returns exactly
the concatenation, in input order, of: the resolved path for a file spec,
and the direct non-hidden file entries (in encounter order) for a directory
spec — hidden entries and sub-directories are skipped, nothing is
deduplicated and no extension filtering happens. -/
theorem C8_path_expansion (fs : FS) (specs : List String) (fuel : Nat)
    (hvalid : ∀ p ∈ specs,
      fs.isFile (fs.abspath p) = true ∨ fs.isDir (fs.abspath p) = true)
    (hne : specs.flatMap (expand_spec fs) ≠ []) :
    get_file_list fs specs false fuel =
      Except.ok (specs.flatMap (expand_spec fs)) := by
  rw [get_file_list, get_file_list_go_append fs fuel specs [] hvalid]
  simp only [List.nil_append]
  rw [if_neg (fun hle => hne (List.length_eq_zero.mp (Nat.le_zero.mp hle)))]

/-- Witness filesystem for C8: directory "/d" contains three visible files,
one hidden file and one sub-directory. -/
def fsW8 : FS :=
  { files := ["/d/f1", "/d/f2", "/d/f3", "/d/.h", "/d/sub/g"],
    dirs := ["/", "/d", "/d/sub"],
    scandirFn := fun p =>
      if p == "/d" then
        [⟨"f1", "/d/f1"⟩, ⟨".h", "/d/.h"⟩, ⟨"f2", "/d/f2"⟩,
         ⟨"sub", "/d/sub"⟩, ⟨"f3", "/d/f3"⟩]
      else if p == "/d/sub" then [⟨"g", "/d/sub/g"⟩]
      else [],
    abspath := fun s => s }

/-- C8 witness: expanding "/d" on `fsW8` yields exactly the three visible
files, in encounter order. -/
theorem C8_path_expansion_witness :
    get_file_list fsW8 ["/d"] false 5 =
      Except.ok (["/d"].flatMap (expand_spec fsW8)) :=
  C8_path_expansion fsW8 ["/d"] 5 (by decide) (by decide)

/-- Everything already accumulated survives the expansion loop, and every
spec that resolves to a regular file contributes its resolved path. -/
theorem get_file_list_go_keeps_files (fs : FS) (recursive : Bool) (fuel : Nat) :
    ∀ (specs acc out : List String),
      get_file_list_go fs recursive fuel specs acc = some out →
      (∀ x ∈ acc, x ∈ out) ∧
      ∀ p ∈ specs, fs.isFile (fs.abspath p) = true → fs.abspath p ∈ out := by
  intro specs
  induction specs with
  | nil =>
    intro acc out h
    rw [get_file_list_go] at h
    injection h with h
    subst h
    exact ⟨fun x hx => hx, by simp⟩
  | cons p rest ih =>
    intro acc out h
    simp only [get_file_list_go] at h
    by_cases hf : fs.isFile (fs.abspath p) = true
    · rw [if_pos hf] at h
      obtain ⟨hacc, hrest⟩ := ih _ _ h
      refine ⟨fun x hx => hacc x (List.mem_append.mpr (Or.inl hx)), ?_⟩
      intro q hq hfq
      rcases List.mem_cons.mp hq with he | hm
      · subst he
        exact hacc _ (List.mem_append.mpr (Or.inr (List.mem_singleton.mpr rfl)))
      · exact hrest q hm hfq
    · by_cases hd : fs.isDir (fs.abspath p) = true
      · rw [if_neg hf, if_pos hd] at h
        obtain ⟨hacc, hrest⟩ := ih _ _ h
        refine ⟨fun x hx => hacc x (List.mem_append.mpr (Or.inl hx)), ?_⟩
        intro q hq hfq
        rcases List.mem_cons.mp hq with he | hm
        · subst he; exact absurd hfq hf
        · exact hrest q hm hfq
      · rw [if_neg hf, if_neg hd] at h
        exact Option.noConfusion h

/-- C10: an input spec that resolves to an existing regular file is always
included in the expansion result, regardless of its base name — the
hidden-name filter applies only to entries found while listing a directory,
not to files named directly as inputs. -/
theorem C10_direct_file_spec_kept (fs : FS) (specs : List String) (fuel : Nat)
    (p : String) (files : List String)
    (hp : p ∈ specs)
    (hf : fs.isFile (fs.abspath p) = true)
    (hok : get_file_list fs specs false fuel = Except.ok files) :
    fs.abspath p ∈ files := by
  rw [get_file_list] at hok
  split at hok
  · exact Except.noConfusion hok
  · next out hgo =>
      split at hok
      · exact Except.noConfusion hok
      · injection hok with hok
        subst hok
        exact (get_file_list_go_keeps_files fs false fuel specs [] out hgo).2 p hp hf

/-- Witness filesystem for C10: a dot-named regular file given directly as
an input spec. -/
def fsW10 : FS :=
  { files := ["/.secret.zip"], dirs := ["/"],
    scandirFn := fun _ => [], abspath := fun s => s }

/-- C10 witness: the directly named hidden file "/.secret.zip" is included
in the expansion result. -/
theorem C10_direct_file_spec_kept_witness :
    fsW10.abspath "/.secret.zip" ∈ ["/.secret.zip"] :=
  C10_direct_file_spec_kept fsW10 ["/.secret.zip"] 5 "/.secret.zip" ["/.secret.zip"]
    (by decide) (by rfl) (by rfl)

/-! ## C1, C2: the batch loop -/

/-- Characterization of a completed batch loop: the reported total is the
preset total, the per-item records extend the incoming trace with exactly
one record per remaining file (in order), and the failure counter grows by
the number of records whose exit code is non-zero. -/
theorem main_loop_go_ok (execTool : List String → Int) (exe_path : String)
    (work_dir : Option String) (password : Option String)
    (code_page : Option Int) (fuel total : Nat) :
    ∀ (files : List String) (fs : FS) (failureCnt : Nat)
      (trace : List ItemRecord) (stats : RunStatistics) (trace2 : List ItemRecord),
      main_loop_go execTool exe_path work_dir password code_page fuel total
        files fs failureCnt trace = LoopResult.ok stats trace2 →
      stats.total = total ∧
      ∃ tn, trace2 = trace ++ tn ∧ tn.map (fun r => r.file) = files ∧
        stats.failure = failureCnt + (tn.filter (fun r => r.code != 0)).length := by
  intro files
  induction files with
  | nil =>
    intro fs fc tr stats tr2 h
    rw [main_loop_go] at h
    injection h with h1 h2
    subst h2
    refine ⟨by rw [← h1], [], (List.append_nil tr).symm, rfl, by rw [← h1]; simp⟩
  | cons f rest ih =>
    intro fs fc tr stats tr2 h
    simp only [main_loop_go] at h
    cases hcd : create_dir fs (some (item_out_dir_arg work_dir f)) fuel with
    | none => simp only [hcd] at h; exact LoopResult.noConfusion h
    | some pr =>
      obtain ⟨sd, fs2⟩ := pr
      simp only [hcd] at h
      cases htab : return_code_table
          (seven_zip execTool exe_path f sd password code_page).returncode with
      | none => simp only [htab] at h; exact LoopResult.noConfusion h
      | some desc =>
        simp only [htab] at h
        obtain ⟨h1, tn, htr, hmap, hfail⟩ := ih _ _ _ _ _ h
        subst htr
        refine ⟨h1,
          { file := f, out_dir := sd,
            code := (seven_zip execTool exe_path f sd password code_page).returncode,
            severity := getSeverity
              (seven_zip execTool exe_path f sd password code_page).returncode,
            desc := desc } :: tn, by simp, by simp [hmap], ?_⟩
        rw [hfail, List.filter_cons]
        by_cases hc : ((seven_zip execTool exe_path f sd password code_page).returncode != 0) = true
        · rw [if_pos hc]
          simp only [hc, if_pos]
          simp
          omega
        · rw [if_neg hc]
          simp only [hc]
          simp at hc
          simp [hc]

/-- C1: every completed batch run reports `total` equal to the number of
resolved input files, one per-item record per file in order, and `failure`
equal to the number of files whose invocation returned a non-zero exit
code. -/
theorem C1_run_statistics (fs : FS) (execTool : List String → Int)
    (exe_path : String) (work_dir : Option String) (password : Option String)
    (code_page : Option Int) (fuel : Nat) (files : List String)
    (stats : RunStatistics) (trace : List ItemRecord)
    (h : main_loop fs execTool exe_path work_dir password code_page fuel files =
      LoopResult.ok stats trace) :
    stats.total = files.length ∧
    trace.map (fun r => r.file) = files ∧
    stats.failure = (trace.filter (fun r => r.code != 0)).length := by
  rw [main_loop] at h
  obtain ⟨h1, tn, htr, hmap, hfail⟩ :=
    main_loop_go_ok execTool exe_path work_dir password code_page fuel
      files.length files fs 0 [] stats trace h
  subst htr
  exact ⟨h1, by simpa using hmap, by simpa using hfail⟩

/-- Witness filesystem for the batch-loop claims. -/
def fsW1 : FS :=
  { files := ["/a.zip", "/b.7z"], dirs := ["/"],
    scandirFn := fun _ => [], abspath := fun s => s }

/-- Witness tool oracle: extraction of "/b.7z" fails with exit code 2,
everything else succeeds. -/
def execW1 : List String → Int :=
  fun cmd => if cmd.getLast? = some "/b.7z" then 2 else 0

/-- The per-item records of the witness run. -/
def traceW1 : List ItemRecord :=
  [{ file := "/a.zip", out_dir := some "/a", code := 0,
     severity := Severity.info, desc := "No error" },
   { file := "/b.7z", out_dir := some "/b", code := 2,
     severity := Severity.error, desc := "Fatal error" }]

/-- C1 witness: a concrete two-file run with one failing archive yields
total 2 and failure 1. -/
theorem C1_run_statistics_witness :
    ({ total := 2, failure := 1 } : RunStatistics).total = ["/a.zip", "/b.7z"].length ∧
    traceW1.map (fun r => r.file) = ["/a.zip", "/b.7z"] ∧
    ({ total := 2, failure := 1 } : RunStatistics).failure =
      (traceW1.filter (fun r => r.code != 0)).length :=
  C1_run_statistics fsW1 execW1 "/7z" none none none 5 ["/a.zip", "/b.7z"]
    { total := 2, failure := 1 } traceW1 (by rfl)

/-- C2 (counterexample): an exit code outside the documented table (here 3)
makes the `CMDSTATUS` description lookup raise an uncaught `KeyError`, which
aborts the batch — the second file is never processed and the loop does not
complete. -/
theorem C2_unknown_exit_code_aborts_batch :
    main_loop fsW1 (fun _ => 3) "/7z" none none none 5 ["/a.zip", "/b.7z"] =
      LoopResult.keyError [] "/a.zip" 3 ∧
    ∀ stats trace,
      main_loop fsW1 (fun _ => 3) "/7z" none none none 5 ["/a.zip", "/b.7z"] ≠
        LoopResult.ok stats trace := by
  refine ⟨rfl, fun stats trace h => ?_⟩
  rw [show main_loop fsW1 (fun _ => 3) "/7z" none none none 5 ["/a.zip", "/b.7z"] =
    LoopResult.keyError [] "/a.zip" 3 from rfl] at h
  exact LoopResult.noConfusion h

/-- As long as every exit code the tool can return is a key of the
documented table, the loop never raises and (given enough fuel) completes. -/
theorem main_loop_go_completes (execTool : List String → Int) (exe_path : String)
    (work_dir : Option String) (password : Option String)
    (code_page : Option Int) (fuel total : Nat)
    (htable : ∀ cmd : List String, (return_code_table (execTool cmd)).isSome = true) :
    ∀ (files : List String) (fs : FS) (failureCnt : Nat) (trace : List ItemRecord),
      main_loop_go execTool exe_path work_dir password code_page fuel total
        files fs failureCnt trace ≠ LoopResult.noFuel →
      ∃ stats trace2,
        main_loop_go execTool exe_path work_dir password code_page fuel total
          files fs failureCnt trace = LoopResult.ok stats trace2 := by
  intro files
  induction files with
  | nil => intro fs fc tr _; exact ⟨_, _, rfl⟩
  | cons f rest ih =>
    intro fs fc tr hnf
    simp only [main_loop_go] at hnf ⊢
    cases hcd : create_dir fs (some (item_out_dir_arg work_dir f)) fuel with
    | none => simp only [hcd] at hnf; exact absurd rfl hnf
    | some pr =>
      obtain ⟨sd, fs2⟩ := pr
      simp only [hcd] at hnf ⊢
      obtain ⟨desc, hdesc⟩ := Option.isSome_iff_exists.mp
        (htable ((seven_zip execTool exe_path f sd password code_page).args))
      have htab : return_code_table
          (seven_zip execTool exe_path f sd password code_page).returncode = some desc := hdesc
      simp only [htab] at hnf ⊢
      exact ih fs2 _ _ hnf

/-- C2 (amended): per-item failures with any exit code in the documented
table {0, 1, 2, 7, 8, 255} are isolated — the loop completes over every
file, counting and recording each outcome, and never throws; an exit code
outside the table instead raises an uncaught lookup error that stops the
batch. -/
theorem C2_batch_isolation (fs : FS) (execTool : List String → Int)
    (exe_path : String) (work_dir : Option String) (password : Option String)
    (code_page : Option Int) (fuel : Nat) (files : List String)
    (htable : ∀ cmd : List String, (return_code_table (execTool cmd)).isSome = true)
    (hfuel : main_loop fs execTool exe_path work_dir password code_page fuel files ≠
      LoopResult.noFuel) :
    ∃ stats trace,
      main_loop fs execTool exe_path work_dir password code_page fuel files =
        LoopResult.ok stats trace ∧
      stats.total = files.length ∧
      trace.map (fun r => r.file) = files ∧
      stats.failure = (trace.filter (fun r => r.code != 0)).length := by
  rw [main_loop] at hfuel ⊢
  obtain ⟨stats, trace, h⟩ :=
    main_loop_go_completes execTool exe_path work_dir password code_page fuel
      files.length htable files fs 0 [] hfuel
  obtain ⟨h1, tn, htr, hmap, hfail⟩ :=
    main_loop_go_ok execTool exe_path work_dir password code_page fuel
      files.length files fs 0 [] stats trace h
  refine ⟨stats, trace, h, h1, ?_, ?_⟩
  · rw [htr]; simpa using hmap
  · rw [htr]; simpa using hfail

/-- C2 witness: with an oracle that always returns the in-table code 1, a
concrete two-file batch completes with both files processed and counted. -/
theorem C2_batch_isolation_witness :
    ∃ stats trace,
      main_loop fsW1 (fun _ => 1) "/7z" none none none 5 ["/a.zip", "/b.7z"] =
        LoopResult.ok stats trace ∧
      stats.total = ["/a.zip", "/b.7z"].length ∧
      trace.map (fun r => r.file) = ["/a.zip", "/b.7z"] ∧
      stats.failure = (trace.filter (fun r => r.code != 0)).length :=
  C2_batch_isolation fsW1 (fun _ => 1) "/7z" none none none 5 ["/a.zip", "/b.7z"]
    (fun _ => rfl) (by decide)

/-! ## C9: process exit codes -/

/-- Helper: `get_file_list` only ever exits with status -2. -/
theorem get_file_list_error_neg2 (fs : FS) (l : List String) (r : Bool)
    (fuel : Nat) (c : Int)
    (h : get_file_list fs l r fuel = Except.error c) : c = -2 := by
  rw [get_file_list] at h
  split at h
  · injection h with h; exact h.symm
  · split at h
    · injection h with h; exact h.symm
    · exact Except.noConfusion h

/-- The fatal pre-run validation conditions: missing executable file,
unrecognized executable base name, or `get_file_list` failure (an input path
that does not exist, or an empty resolved file set). -/
def pre_run_validation_fails (fs : FS) (args : Args) (fuel : Nat) : Prop :=
  fs.isFile args.exe = false ∨
  main_executables.contains (splitext (basename args.exe)).1 = false ∨
  ∃ c, get_file_list fs args.input false fuel = Except.error c

/-- The batch run completes: validation passes, the inputs resolve, the
output root is allocated and the loop finishes normally (with any number of
per-archive failures). -/
def batch_completes (fs : FS) (execTool : List String → Int) (args : Args)
    (fuel : Nat) : Prop :=
  fs.isFile args.exe = true ∧
  main_executables.contains (splitext (basename args.exe)).1 = true ∧
  ∃ files work_dir fs2 stats trace,
    get_file_list fs args.input false fuel = Except.ok files ∧
    create_dir fs args.output fuel = some (work_dir, fs2) ∧
    main_loop fs2 execTool (fs.abspath args.exe) work_dir args.password
      args.codepage fuel files = LoopResult.ok stats trace

/-- C9: the process exits with code 0 exactly when the batch run completes
(regardless of how many individual archives failed, since `batch_completes`
puts no constraint on the statistics), and exits with code -2 exactly for
the fatal pre-run validation errors: a missing or unrecognized executable,
an invalid input path, or an empty resolved file set. -/
theorem C9_exit_codes (fs : FS) (execTool : List String → Int) (args : Args)
    (fuel : Nat) :
    (run_script fs execTool args fuel = ScriptResult.exitCode 0 ↔
      batch_completes fs execTool args fuel) ∧
    (run_script fs execTool args fuel = ScriptResult.exitCode (-2) ↔
      pre_run_validation_fails fs args fuel) := by
  by_cases hexe : fs.isFile args.exe = true
  · by_cases hname : main_executables.contains (splitext (basename args.exe)).1 = true
    · have hmem := contains_eq_true_iff_mem.mp hname
      cases hgf : get_file_list fs args.input false fuel with
      | error c =>
        have hc := get_file_list_error_neg2 fs args.input false fuel c hgf
        subst hc
        have hrun : run_script fs execTool args fuel = ScriptResult.exitCode (-2) := by
          simp [run_script, hexe, hname, hgf, hmem]
        rw [hrun]
        constructor
        · constructor
          · intro h; injection h with h; exact absurd h (by decide)
          · rintro ⟨_, _, files, wd, fs2, stats, trace, hgf2, _, _⟩
            rw [hgf] at hgf2; exact Except.noConfusion hgf2
        · exact ⟨fun _ => Or.inr (Or.inr ⟨-2, hgf⟩), fun _ => rfl⟩
      | ok files =>
        cases hcd : create_dir fs args.output fuel with
        | none =>
          have hrun : run_script fs execTool args fuel = ScriptResult.noFuel := by
            simp [run_script, hexe, hname, hgf, hcd, hmem]
          rw [hrun]
          constructor
          · constructor
            · intro h; exact ScriptResult.noConfusion h
            · rintro ⟨_, _, files2, wd, fs2, stats, trace, hgf2, hcd2, _⟩
              rw [hgf] at hgf2; injection hgf2 with hfe; subst hfe
              rw [hcd] at hcd2; exact Option.noConfusion hcd2
          · constructor
            · intro h; exact ScriptResult.noConfusion h
            · rintro (hvf | hvf | ⟨c, hvf⟩)
              · rw [hexe] at hvf; exact Bool.noConfusion hvf
              · rw [hname] at hvf; exact Bool.noConfusion hvf
              · rw [hgf] at hvf; exact Except.noConfusion hvf
        | some pr =>
          obtain ⟨wd, fs2⟩ := pr
          cases hml : main_loop fs2 execTool (fs.abspath args.exe) wd args.password
              args.codepage fuel files with
          | ok stats trace =>
            have hrun : run_script fs execTool args fuel = ScriptResult.exitCode 0 := by
              simp [run_script, hexe, hname, hgf, hcd, hml, hmem]
            rw [hrun]
            constructor
            · exact ⟨fun _ => ⟨hexe, hname, files, wd, fs2, stats, trace, hgf, hcd, hml⟩,
                fun _ => rfl⟩
            · constructor
              · intro h; injection h with h; exact absurd h (by decide)
              · rintro (hvf | hvf | ⟨c, hvf⟩)
                · rw [hexe] at hvf; exact Bool.noConfusion hvf
                · rw [hname] at hvf; exact Bool.noConfusion hvf
                · rw [hgf] at hvf; exact Except.noConfusion hvf
          | keyError processed file code =>
            have hrun : run_script fs execTool args fuel = ScriptResult.uncaught := by
              simp [run_script, hexe, hname, hgf, hcd, hml, hmem]
            rw [hrun]
            constructor
            · constructor
              · intro h; exact ScriptResult.noConfusion h
              · rintro ⟨_, _, files2, wd2, fs22, stats, trace, hgf2, hcd2, hml2⟩
                rw [hgf] at hgf2; injection hgf2 with hfe; subst hfe
                rw [hcd] at hcd2; injection hcd2 with hcd2
                injection hcd2 with hw hf2
                subst hw; subst hf2
                rw [hml] at hml2; exact LoopResult.noConfusion hml2
            · constructor
              · intro h; exact ScriptResult.noConfusion h
              · rintro (hvf | hvf | ⟨c, hvf⟩)
                · rw [hexe] at hvf; exact Bool.noConfusion hvf
                · rw [hname] at hvf; exact Bool.noConfusion hvf
                · rw [hgf] at hvf; exact Except.noConfusion hvf
          | noFuel =>
            have hrun : run_script fs execTool args fuel = ScriptResult.noFuel := by
              simp [run_script, hexe, hname, hgf, hcd, hml, hmem]
            rw [hrun]
            constructor
            · constructor
              · intro h; exact ScriptResult.noConfusion h
              · rintro ⟨_, _, files2, wd2, fs22, stats, trace, hgf2, hcd2, hml2⟩
                rw [hgf] at hgf2; injection hgf2 with hfe; subst hfe
                rw [hcd] at hcd2; injection hcd2 with hcd2
                injection hcd2 with hw hf2
                subst hw; subst hf2
                rw [hml] at hml2; exact LoopResult.noConfusion hml2
            · constructor
              · intro h; exact ScriptResult.noConfusion h
              · rintro (hvf | hvf | ⟨c, hvf⟩)
                · rw [hexe] at hvf; exact Bool.noConfusion hvf
                · rw [hname] at hvf; exact Bool.noConfusion hvf
                · rw [hgf] at hvf; exact Except.noConfusion hvf
    · have hname2 : main_executables.contains (splitext (basename args.exe)).1 = false := by
        simpa using hname
      have hmem2 : ¬ (splitext (basename args.exe)).1 ∈ main_executables :=
        fun hm => hname (contains_eq_true_iff_mem.mpr hm)
      have hrun : run_script fs execTool args fuel = ScriptResult.exitCode (-2) := by
        simp [run_script, hexe, hname2, hmem2]
      rw [hrun]
      constructor
      · constructor
        · intro h; injection h with h; exact absurd h (by decide)
        · intro hbc
          have hb := hbc.2.1
          rw [hname2] at hb
          exact Bool.noConfusion hb
      · exact ⟨fun _ => Or.inr (Or.inl hname2), fun _ => rfl⟩
  · have hexe2 : fs.isFile args.exe = false := by simpa using hexe
    have hrun : run_script fs execTool args fuel = ScriptResult.exitCode (-2) := by
      simp [run_script, hexe2]
    rw [hrun]
    constructor
    · constructor
      · intro h; injection h with h; exact absurd h (by decide)
      · intro hbc
        have hb := hbc.1
        rw [hexe2] at hb
        exact Bool.noConfusion hb
    · exact ⟨fun _ => Or.inl hexe2, fun _ => rfl⟩

end D7
